import Mathlib

/-!
Shallow embedding of `vllm/distributed/communication_op.py`: the collective
and point-to-point communication dispatch layer of a tensor-parallel /
pipeline-parallel inference engine.

Tensors are modelled as a dtype, a device, a shape (list of dimension sizes)
and a flat row-major buffer (`List α`).  Collective calls are modelled as
pure functions taking the per-rank inputs of every participating rank (the
wire content) and returning the value observed by the calling rank; a fallible
call (a Python `assert` / `RuntimeError`) returns `none` / `Except.error`.
-/

namespace CommOp

/-- Element dtypes (torch dtypes relevant to this layer). -/
inductive DType
  | float32
  | float16
  | int64
  | int32
  deriving DecidableEq, Repr

/-- Device placement: host (`cpu`) or accelerator (`cuda`). -/
inductive Device
  | cpu
  | cuda
  deriving DecidableEq, Repr

/-- A tensor: dtype, device, shape, and a flat row-major data buffer. -/
structure Tensor (α : Type) where
  dtype : DType
  device : Device
  shape : List Nat
  data : List α
  deriving DecidableEq, Repr

/-- `t.ndim` is `input_.dim()` in torch: the number of axes. -/
def Tensor.ndim (t : Tensor α) : Nat := t.shape.length

/-- `t.numel` is the number of elements the shape describes. -/
def Tensor.numel (t : Tensor α) : Nat := t.shape.prod

/-- Placeholder tensor used only as a `getD` default (never hit in theorems). -/
def dummyT : Tensor α := ⟨DType.float32, Device.cuda, [], []⟩

/-- Normalisation of a possibly negative torch `dim` argument:
`if dim < 0: dim += ndim`. -/
def normDim (ndim : Nat) (dim : Int) : Nat :=
  (if dim < 0 then dim + ndim else dim).toNat

/-! ### all-reduce dispatch (`tensor_model_parallel_all_reduce`) -/

/-- Which backend actually performed a reduction. -/
inductive ARBackend
  | custom
  | pynccl
  | generic
  deriving DecidableEq, Repr

/-- The environment consulted by `tensor_model_parallel_all_reduce`:
tensor-parallel world size, the custom all-reduce kernel (which may decline
by returning `none`), the pynccl enable flag, and the two in-place backends
(modelled as the value the mutated input holds after the call). -/
structure ARenv (α : Type) where
  tpWorldSize : Nat
  custom_all_reduce : Tensor α → Option (Tensor α)
  pynccl_enabled : Bool
  pynccl_all_reduce : Tensor α → Tensor α
  torch_all_reduce : Tensor α → Tensor α

/-- `tensor_model_parallel_all_reduce(input_)`.  Returns the output tensor
together with the backend that performed the reduction (`none` when the
world-size-1 bypass fired and no communication was issued). -/
def tensor_model_parallel_all_reduce (env : ARenv α) (input_ : Tensor α) :
    Tensor α × Option ARBackend :=
  if env.tpWorldSize = 1 then (input_, none)
  else
    match env.custom_all_reduce input_ with
    | some out => (out, some ARBackend.custom)
    | none =>
      if env.pynccl_enabled then (env.pynccl_all_reduce input_, some ARBackend.pynccl)
      else (env.torch_all_reduce input_, some ARBackend.generic)

/-! ### broadcast / broadcast_object_list -/

/-- `broadcast(input_, src, group)`.  `ranks` is the rank list of the group,
`srcData` the tensor value broadcast by the source rank (the wire content;
for the source rank itself `srcData = input_`).  `none` models the
`assert src in ranks` failure. -/
def broadcast (ranks : List Nat) (src : Nat) (input_ : Tensor α)
    (srcData : Tensor α) : Option (Tensor α) :=
  if ¬ src ∈ ranks then none
  else if ranks.length = 1 then some input_
  else some srcData

/-- `broadcast_object_list(obj_list, src, group)`; `srcList` is the source
rank's object list (wire content). -/
def broadcast_object_list (ranks : List Nat) (src : Nat) (obj_list : List β)
    (srcList : List β) : Option (List β) :=
  if ¬ src ∈ ranks then none
  else if ranks.length = 1 then some obj_list
  else some srcList

/-! ### all-gather / gather (`tensor_model_parallel_all_gather`, `_gather`)

Flat row-major index bookkeeping.  A shape `s` with distinguished axis `dn`
is viewed as a 3-d tensor `(A, m, B)` with `A = (s.take dn).prod`,
`m = s.getD dn 0`, `B = (s.drop (dn+1)).prod`. -/

/-- `movedimZero n A C d₀ data`: `torch.movedim(x, 0, dn)` applied to a
tensor of shape `(n, s₀, …)`, where `A` is the product of the axes of `s`
strictly before position `dn` and `C` the product of the axes from `dn` on.
Result element `(a, r, c)` (shape `(A, n, C)`) is source element `(r, a, c)`
(shape `(n, A, C)`). -/
def movedimZero (n A C : Nat) (d₀ : α) (data : List α) : List α :=
  (List.range (A * (n * C))).map fun idx =>
    data.getD (idx % (n * C) / C * (A * C) + idx / (n * C) * C + idx % C) d₀

/-- `sliceDim A m B N q d₀ data`: chunk `q` of `torch.chunk(x, N, dim)` for a
tensor whose shape at axis `dim` is `N * m`, viewed as `(A, N*m, B)`.  The
chunk has shape `(A, m, B)`; its element `(a, j, b)` is source element
`(a, q*m + j, b)`. -/
def sliceDim (A m B N q : Nat) (d₀ : α) (data : List α) : List α :=
  (List.range (A * (m * B))).map fun idx =>
    data.getD (idx / (m * B) * (N * (m * B)) + (q * m + idx % (m * B) / B) * B
      + idx % B) d₀

/-- `tensor_model_parallel_all_gather(input_, dim)`.  `world` lists every
tensor-parallel rank's input (the wire content of
`torch.distributed.all_gather_into_tensor`, in rank order); `rank` is the
calling rank, so `input_ = world.getD rank`.  `none` models the
`assert -input_.dim() <= dim < input_.dim()` failure.  The gathered stack
(new leading axis of length `world_size`) is `movedim`-ed to position `dim`
and reshaped to merge the two axes, exactly as in the source. -/
def tensor_model_parallel_all_gather (d₀ : α) (world : List (Tensor α))
    (rank : Nat) (dim : Int) : Option (Tensor α) :=
  let world_size := world.length
  let input_ := world.getD rank dummyT
  if world_size = 1 then some input_
  else if dim < -(input_.ndim : Int) ∨ (input_.ndim : Int) ≤ dim then none
  else
    let dn := normDim input_.ndim dim
    let input_size := input_.shape
    let A := (input_size.take dn).prod
    let C := (input_size.drop dn).prod
    let gathered := (world.map Tensor.data).flatten
    some ⟨input_.dtype, input_.device,
      input_size.take dn ++ [world_size * input_size.getD dn 0]
        ++ input_size.drop (dn + 1),
      movedimZero world_size A C d₀ gathered⟩

/-- `catDim A m B d₀ ts`: `torch.cat(ts, dim)` for tensors of identical
shape, viewed as `(A, m, B)` each; the result is `(A, ts.length * m, B)`
with element `(a, r*m + j, b)` equal to `ts[r]`'s element `(a, j, b)`. -/
def catDim (A m B : Nat) (d₀ : α) (ts : List (List α)) : List α :=
  (List.range (A * (ts.length * m * B))).map fun idx =>
    let M := ts.length * m
    (ts.getD (idx % (M * B) / B / m) []).getD
      (idx / (M * B) * (m * B) + idx % (M * B) / B % m * B + idx % B) d₀

/-- `tensor_model_parallel_gather(input_, dst, dim)`.  `world` lists every
rank's input in rank order, `rank` is the calling rank.  `Except.error ()`
models the dim assertion failure; `Except.ok none` is the `None` returned on
every rank other than `dst`; rank `dst` gets `torch.cat(gather_list, dim)`. -/
def tensor_model_parallel_gather (d₀ : α) (world : List (Tensor α))
    (rank : Nat) (dst : Nat) (dim : Int) : Except Unit (Option (Tensor α)) :=
  let world_size := world.length
  let input_ := world.getD rank dummyT
  if world_size = 1 then Except.ok (some input_)
  else if dim < -(input_.ndim : Int) ∨ (input_.ndim : Int) ≤ dim then
    Except.error ()
  else
    let dn := normDim input_.ndim dim
    let input_size := input_.shape
    let A := (input_size.take dn).prod
    let m := input_size.getD dn 0
    let B := (input_size.drop (dn + 1)).prod
    if rank = dst then
      Except.ok (some ⟨input_.dtype, input_.device,
        input_size.take dn ++ [world_size * m] ++ input_size.drop (dn + 1),
        catDim A m B d₀ (world.map Tensor.data)⟩)
    else Except.ok none

/-! ### broadcast_tensor_dict -/

/-- `TensorMetadata = namedtuple("TensorMetadata", ["dtype", "size"])`. -/
structure TensorMetadata where
  dtype : DType
  size : List Nat
  deriving DecidableEq, Repr

/-- A value of a tensor dict: a tensor or an arbitrary (serializable)
non-tensor object, drawn from a type `β`. -/
inductive TValue (α β : Type)
  | tensor (t : Tensor α)
  | obj (o : β)
  deriving DecidableEq, Repr

/-- An entry of the metadata list: a `TensorMetadata` descriptor (the value
was a tensor) or the non-tensor value passed through. -/
inductive TMeta (β : Type)
  | metadata (m : TensorMetadata)
  | obj (o : β)
  deriving DecidableEq, Repr

/-- Whether a dict value is a tensor (`isinstance(value, torch.Tensor)`). -/
def TValue.isTensor : TValue α β → Bool
  | TValue.tensor _ => true
  | TValue.obj _ => false

/-- An ordered dict, as a key/value association list (Python dicts iterate
in insertion order and have unique keys). -/
abbrev TDict (κ α β : Type) : Type := List (κ × TValue α β)

/-- `tensor_dict[key]`: ordered-dict lookup. -/
def dictLookup [DecidableEq κ] (d : TDict κ α β) (k : κ) :
    Option (TValue α β) :=
  match d with
  | [] => none
  | (k₀, v) :: rest => if k₀ = k then some v else dictLookup rest k

/-- The source-rank metadata pass of `broadcast_tensor_dict`: walk the dict
in order, replacing each tensor by its `(dtype, size)` descriptor and passing
non-tensor values through.  `none` models the `assert value.is_cuda`
failure on a non-accelerator tensor. -/
def buildMetadata : TDict κ α β → Option (List (κ × TMeta β))
  | [] => some []
  | (k, TValue.tensor t) :: rest =>
    if t.device = Device.cuda then
      (buildMetadata rest).map fun md => (k, TMeta.metadata ⟨t.dtype, t.shape⟩) :: md
    else none
  | (k, TValue.obj o) :: rest =>
    (buildMetadata rest).map fun md => (k, TMeta.obj o) :: md

/-- The tensors the source rank broadcasts, in issue order: one
`torch.distributed.broadcast(tensor_dict[key], …, async_op=True)` per
`TensorMetadata` entry of the metadata list. -/
def srcPayloads [DecidableEq κ] (tensor_dict : TDict κ α β)
    (md : List (κ × TMeta β)) : List (Tensor α) :=
  md.filterMap fun kv =>
    match kv.2 with
    | TMeta.metadata _ =>
      match dictLookup tensor_dict kv.1 with
      | some (TValue.tensor t) => some t
      | _ => none
    | TMeta.obj _ => none

/-- The receive side of `broadcast_tensor_dict`: walk the received metadata
list in order; for each `TensorMetadata` entry allocate a cuda tensor of the
declared dtype/size whose buffer is filled by the matching broadcast (the
next element of `payloads`, since both sides issue the per-tensor broadcasts
in metadata order); pass non-tensor values through. -/
def recvTensorDict : List (κ × TMeta β) → List (List α) → TDict κ α β
  | [], _ => []
  | (k, TMeta.metadata m) :: rest, ps =>
    (k, TValue.tensor ⟨m.dtype, Device.cuda, m.size, ps.headD []⟩)
      :: recvTensorDict rest ps.tail
  | (k, TMeta.obj o) :: rest, ps => (k, TValue.obj o) :: recvTensorDict rest ps

/-- `broadcast_tensor_dict(tensor_dict, src, group)`.  `ranks` is the group's
rank list, `rank` the calling rank, `srcDict` the source rank's dict (wire
content).  Outer `none`: a failed assertion (`src` not in `ranks`, a
non-dict payload on the source, or a non-cuda tensor).  Inner value: the
dict the call returns. -/
def broadcast_tensor_dict [DecidableEq κ] (ranks : List Nat) (src : Nat)
    (rank : Nat) (tensor_dict : Option (TDict κ α β)) (srcDict : TDict κ α β) :
    Option (Option (TDict κ α β)) :=
  if ¬ src ∈ ranks then none
  else if ranks.length = 1 then some tensor_dict
  else if rank = src then
    match tensor_dict with
    | none => none
    | some d => (buildMetadata d).map fun _ => some d
  else
    (buildMetadata srcDict).map fun md =>
      some (recvTensorDict md ((srcPayloads srcDict md).map Tensor.data))

/-! ### PipelineTransport (`send_next_rank`, `recv_prev_rank`) -/

/-- The three wire strategies (`get_pp_communication_method()`). -/
inductive CommMethod
  | send_recv
  | signal
  | allgather
  deriving DecidableEq, Repr

/-- The topology consulted by the pipeline transport. -/
structure PPEnv where
  ppNextRank : Nat
  ppPrevRank : Nat
  ppWorldSize : Nat
  commMethod : CommMethod
  tpRank : Nat
  tpWorldSize : Nat
  deriving DecidableEq, Repr

/-- A point-to-point message placed on the wire by `torch.distributed.send`:
destination rank and flat payload. -/
structure Msg (α : Type) where
  dest : Nat
  payload : List α
  deriving DecidableEq, Repr

/-- `torch.cat(tensors, dim=0)` is defined when the list is non-empty and
all tensors agree on dtype, device, and every axis but the leading one. -/
def catOk (tensors : List (Tensor α)) : Bool :=
  match tensors with
  | [] => false
  | t₀ :: _ => tensors.all fun t =>
      t.dtype = t₀.dtype && t.device = t₀.device && t.shape.tail = t₀.shape.tail
        && t.shape.length = t₀.shape.length

/-- `_send_next_rank_sliced(tensor)`: reshape the combined flat buffer to
`(tp_world_size, numel / tp_world_size)` and send row `tp_rank`.  `none`
models the reshape failure (numel not divisible) or an out-of-range rank. -/
def sendNextRankSliced (env : PPEnv) (combined : List α) : Option (Msg α) :=
  if env.tpWorldSize = 0 ∨ ¬ env.tpWorldSize ∣ combined.length
      ∨ ¬ env.tpRank < env.tpWorldSize then none
  else
    let k := combined.length / env.tpWorldSize
    some ⟨env.ppNextRank, (combined.drop (env.tpRank * k)).take k⟩

/-- `send_next_rank(tensors)`: concatenate along axis 0, then dispatch on the
strategy.  The result is the message placed on the wire (`none` models a
raised error). -/
def send_next_rank (env : PPEnv) (tensors : List (Tensor α)) : Option (Msg α) :=
  if ¬ catOk tensors then none
  else
    let combined := (tensors.map Tensor.data).flatten
    match env.commMethod with
    | CommMethod.signal =>
      if combined.length = 0 then none
      else some ⟨env.ppNextRank, combined.take 1⟩
    | CommMethod.allgather => sendNextRankSliced env combined
    | CommMethod.send_recv => some ⟨env.ppNextRank, combined⟩

/-- Split a flat combined buffer into `num` equal chunks along axis 0
(`torch.chunk(combined_tensor, num_tensors, dim=0)` with the leading axis a
multiple of `num`): chunk `i` has shape `sizes` and the `i`-th block of
`sizes.prod` elements. -/
def chunk0 (num : Nat) (sizes : List Nat) (dtype : DType) (device : Device)
    (data : List α) : List (Tensor α) :=
  (List.range num).map fun i =>
    ⟨dtype, device, sizes, (data.drop (i * sizes.prod)).take sizes.prod⟩

/-- `_recv_next_rank_sliced(tensor)`: receive the local shard from the peer
stage (`wire`), then all-gather the shards over the tensor-parallel group.
`tpShards r` is the shard received by TP rank `r` (this rank's own
contribution is `wire` itself). -/
def recvNextRankSliced (env : PPEnv) (n : Nat) (wire : List α)
    (tpShards : Nat → List α) : Option (List α) :=
  if env.tpWorldSize = 0 ∨ ¬ env.tpWorldSize ∣ n
      ∨ ¬ env.tpRank < env.tpWorldSize ∨ ¬ wire.length = n / env.tpWorldSize
    then none
  else
    let gathered := (List.range env.tpWorldSize).flatMap fun r =>
      if r = env.tpRank then wire else tpShards r
    if gathered.length = n then some gathered else none

/-- `recv_prev_rank(num_tensors, sizes, dtype, device)`.  `wire` is the flat
payload delivered by the point-to-point receive from the previous stage;
`tpShards` gives, for the `allgather` strategy, the shard each peer TP rank
contributes to the intra-stage all-gather.  Returns the list of chunks, or
`none` for a raised error / size-mismatched receive. -/
def recv_prev_rank [One α] (env : PPEnv) (num_tensors : Nat)
    (sizes : List Nat) (dtype : DType) (device : Device) (d₀ : α)
    (wire : List α) (tpShards : Nat → List α) : Option (List (Tensor α)) :=
  if num_tensors = 0 then none
  else
    let n := num_tensors * sizes.prod
    match env.commMethod with
    | CommMethod.signal =>
      if n = 0 ∨ ¬ wire.length = 1 then none
      else
        let combined := (List.replicate n (1 : α)).set 0 (wire.getD 0 d₀)
        some (chunk0 num_tensors sizes dtype device combined)
    | CommMethod.allgather =>
      (recvNextRankSliced env n wire tpShards).map fun combined =>
        chunk0 num_tensors sizes dtype device combined
    | CommMethod.send_recv =>
      if wire.length = n then
        some (chunk0 num_tensors sizes dtype device wire)
      else none

/-! ### Helper lemmas: flat row-major index arithmetic -/

theorem enc_lt {x y X Y : Nat} (hx : x < X) (hy : y < Y) : x * Y + y < X * Y :=
  calc x * Y + y < x * Y + Y := by omega
    _ = (x + 1) * Y := by ring
    _ ≤ X * Y := Nat.mul_le_mul_right Y hx

theorem enc_div {x y Y : Nat} (hy : y < Y) : (x * Y + y) / Y = x := by
  have hY : 0 < Y := Nat.pos_of_ne_zero (by omega)
  rw [mul_comm x Y, Nat.mul_add_div hY, Nat.div_eq_of_lt hy]
  omega

theorem enc_mod {x y Y : Nat} (hy : y < Y) : (x * Y + y) % Y = y := by
  rw [mul_comm x Y, Nat.mul_add_mod, Nat.mod_eq_of_lt hy]

theorem getD_range_map (f : Nat → α) (L t : Nat) (d : α) (h : t < L) :
    ((List.range L).map f).getD t d = f t := by
  rw [List.getD_eq_getElem?_getD, List.getElem?_map, List.getElem?_range h]
  rfl

theorem flatten_getD_uniform (L : Nat) (d : α) :
    ∀ (ls : List (List α)) (r i : Nat), (∀ l ∈ ls, l.length = L) →
      r < ls.length → i < L →
      ls.flatten.getD (r * L + i) d = (ls.getD r []).getD i d := by
  intro ls
  induction ls with
  | nil => intro r i _ hr _; simp at hr
  | cons hd tl ih =>
    intro r i hlen hr hi
    have hhd : hd.length = L := hlen hd (by simp)
    match r with
    | 0 =>
      rw [List.flatten_cons, zero_mul, zero_add,
        List.getD_append _ _ _ _ (by omega)]
      rfl
    | r + 1 =>
      rw [List.flatten_cons, List.getD_append_right _ _ _ _ (by
        have : r * L + i + L = (r + 1) * L + i := by ring
        omega)]
      have harith : (r + 1) * L + i - hd.length = r * L + i := by
        have : (r + 1) * L + i = r * L + i + L := by ring
        omega
      rw [harith]
      exact ih r i (fun l hl => hlen l (by simp [hl])) (by simpa using hr) hi

theorem concat_shards (k : Nat) : ∀ (N : Nat) (l : List α),
    l.length = N * k →
    ((List.range N).flatMap fun r => (l.drop (r * k)).take k) = l := by
  intro N
  induction N with
  | zero =>
    intro l hl
    simp only [Nat.zero_mul] at hl
    simp [List.eq_nil_of_length_eq_zero hl]
  | succ n ih =>
    intro l hl
    rw [List.range_succ_eq_map, List.flatMap_cons]
    have hshift : ((List.range n).map Nat.succ).flatMap
        (fun r => (l.drop (r * k)).take k)
        = (List.range n).flatMap fun r => ((l.drop k).drop (r * k)).take k := by
      rw [List.flatMap_map]
      apply List.flatMap_congr
      intro r _
      simp only [Function.comp_apply, List.drop_drop]
      congr 2
      simp only [Nat.succ_eq_add_one]
      ring
    rw [hshift, ih (l.drop k) (by rw [List.length_drop, hl]; ring_nf; omega)]
    rw [zero_mul, List.drop_zero, List.take_append_drop]

theorem shard_of_flatten (c : Nat) : ∀ (ls : List (List α)) (i : Nat),
    (∀ l ∈ ls, l.length = c) → i < ls.length →
    ((ls.flatten.drop (i * c)).take c) = ls.getD i [] := by
  intro ls
  induction ls with
  | nil => intro i _ hi; simp at hi
  | cons hd tl ih =>
    intro i hlen hi
    have hhd : hd.length = c := hlen hd (by simp)
    match i with
    | 0 =>
      rw [zero_mul, List.drop_zero, List.flatten_cons, ← hhd, List.take_left]
      rfl
    | i + 1 =>
      rw [List.flatten_cons]
      have : (i + 1) * c = hd.length + i * c := by rw [hhd]; ring
      rw [this, ← List.drop_drop, List.drop_left]
      exact ih i (fun l hl => hlen l (by simp [hl])) (by simpa using hi)

theorem pos_of_lt_mul {A C i : Nat} (h : i < A * C) : 0 < A ∧ 0 < C := by
  constructor
  · rcases Nat.eq_zero_or_pos A with h0 | h0
    · rw [h0, zero_mul] at h; omega
    · exact h0
  · rcases Nat.eq_zero_or_pos C with h0 | h0
    · rw [h0, mul_zero] at h; omega
    · exact h0

theorem movedimZero_getD (n A C : Nat) (d₀ : α) (data : List α) (t : Nat)
    (ht : t < A * (n * C)) :
    (movedimZero n A C d₀ data).getD t d₀
      = data.getD (t % (n * C) / C * (A * C) + t / (n * C) * C + t % C) d₀ := by
  unfold movedimZero
  exact getD_range_map _ _ _ _ ht

theorem catDim_getD (A m B : Nat) (d₀ : α) (ls : List (List α)) (t : Nat)
    (ht : t < A * (ls.length * m * B)) :
    (catDim A m B d₀ ls).getD t d₀
      = (ls.getD (t % (ls.length * m * B) / B / m) []).getD
          (t / (ls.length * m * B) * (m * B) + t % (ls.length * m * B) / B % m * B
            + t % B) d₀ := by
  unfold catDim
  exact getD_range_map _ _ _ _ ht

theorem sliceDim_getD (A m B N q : Nat) (d₀ : α) (data : List α) (t : Nat)
    (ht : t < A * (m * B)) :
    (sliceDim A m B N q d₀ data).getD t d₀
      = data.getD (t / (m * B) * (N * (m * B)) + (q * m + t % (m * B) / B) * B
          + t % B) d₀ := by
  unfold sliceDim
  exact getD_range_map _ _ _ _ ht

theorem length_sliceDim (A m B N q : Nat) (d₀ : α) (data : List α) :
    (sliceDim A m B N q d₀ data).length = A * (m * B) := by
  simp [sliceDim]

/-- Chunk `q` of `movedim(stack(ls), 0, dim) . reshape(...)` is `ls[q]`:
slicing the all-gathered tensor along the merged axis recovers rank `q`'s
contribution. -/
theorem sliceDim_movedimZero (A m B N q : Nat) (d₀ : α) (ls : List (List α))
    (hlen : ∀ l ∈ ls, l.length = A * (m * B)) (hN : ls.length = N)
    (hq : q < N) :
    sliceDim A m B N q d₀ (movedimZero N A (m * B) d₀ ls.flatten)
      = ls.getD q [] := by
  have hmem : ls.getD q [] ∈ ls := by
    rw [List.getD_eq_getElem ls [] (by omega)]
    exact List.getElem_mem _
  have hql : (ls.getD q []).length = A * (m * B) := hlen _ hmem
  apply List.ext_getElem
  · rw [length_sliceDim, hql]
  · intro i h1 h2
    have hiAC : i < A * (m * B) := by
      rw [length_sliceDim] at h1; exact h1
    obtain ⟨hA, hCpos⟩ := pos_of_lt_mul hiAC
    obtain ⟨hm, hB⟩ := pos_of_lt_mul hCpos
    have hb : i % B < B := Nat.mod_lt _ hB
    have hc0 : i % (m * B) < m * B := Nat.mod_lt _ hCpos
    have hj : i % (m * B) / B < m := (Nat.div_lt_iff_lt_mul hB).mpr hc0
    have ha : i / (m * B) < A := (Nat.div_lt_iff_lt_mul hCpos).mpr hiAC
    have hz : i % (m * B) / B * B + i % B < m * B := enc_lt hj hb
    have hy : q * (m * B) + (i % (m * B) / B * B + i % B) < N * (m * B) :=
      enc_lt hq hz
    have ht : i / (m * B) * (N * (m * B))
        + (q * (m * B) + (i % (m * B) / B * B + i % B)) < A * (N * (m * B)) :=
      enc_lt ha hy
    rw [← List.getD_eq_getElem _ d₀ h1]
    rw [sliceDim_getD A m B N q d₀ _ i hiAC]
    have e1 : i / (m * B) * (N * (m * B)) + (q * m + i % (m * B) / B) * B
        + i % B
        = i / (m * B) * (N * (m * B))
          + (q * (m * B) + (i % (m * B) / B * B + i % B)) := by ring
    rw [e1]
    rw [movedimZero_getD N A (m * B) d₀ _ _ ht]
    rw [enc_div hy, enc_mod hy, enc_div hz]
    have e2 : i / (m * B) * (N * (m * B))
        + (q * (m * B) + (i % (m * B) / B * B + i % B))
        = (i / (m * B) * N + q) * (m * B) + (i % (m * B) / B * B + i % B) := by
      ring
    rw [e2, enc_mod hz]
    have hrecomp : i / (m * B) * (m * B) + (i % (m * B) / B * B + i % B)
        = i := by
      have hmm : i % (m * B) % B = i % B :=
        Nat.mod_mod_of_dvd i (dvd_mul_left B m)
      have h2' : i % (m * B) / B * B + i % (m * B) % B = i % (m * B) := by
        rw [mul_comm]; exact Nat.div_add_mod (i % (m * B)) B
      have h1' : i / (m * B) * (m * B) + i % (m * B) = i := by
        rw [mul_comm]; exact Nat.div_add_mod i (m * B)
      rw [hmm] at h2'
      omega
    have e3 : q * (A * (m * B)) + i / (m * B) * (m * B)
        + (i % (m * B) / B * B + i % B)
        = q * (A * (m * B)) + (i / (m * B) * (m * B)
          + (i % (m * B) / B * B + i % B)) := by ring
    rw [e3, flatten_getD_uniform (A * (m * B)) d₀ ls q _ hlen (by omega)
      (enc_lt ha hz), hrecomp]
    exact List.getD_eq_getElem _ _ h2

/-- Chunk `q` of `torch.cat(ls, dim)` (equal shapes) is `ls[q]`. -/
theorem sliceDim_catDim (A m B N q : Nat) (d₀ : α) (ls : List (List α))
    (hlen : ∀ l ∈ ls, l.length = A * (m * B)) (hN : ls.length = N)
    (hq : q < N) :
    sliceDim A m B N q d₀ (catDim A m B d₀ ls) = ls.getD q [] := by
  have hmem : ls.getD q [] ∈ ls := by
    rw [List.getD_eq_getElem ls [] (by omega)]
    exact List.getElem_mem _
  have hql : (ls.getD q []).length = A * (m * B) := hlen _ hmem
  apply List.ext_getElem
  · rw [length_sliceDim, hql]
  · intro i h1 h2
    have hiAC : i < A * (m * B) := by
      rw [length_sliceDim] at h1; exact h1
    obtain ⟨hA, hCpos⟩ := pos_of_lt_mul hiAC
    obtain ⟨hm, hB⟩ := pos_of_lt_mul hCpos
    have hb : i % B < B := Nat.mod_lt _ hB
    have hc0 : i % (m * B) < m * B := Nat.mod_lt _ hCpos
    have hj : i % (m * B) / B < m := (Nat.div_lt_iff_lt_mul hB).mpr hc0
    have ha : i / (m * B) < A := (Nat.div_lt_iff_lt_mul hCpos).mpr hiAC
    have hz : i % (m * B) / B * B + i % B < m * B := enc_lt hj hb
    have hy : q * (m * B) + (i % (m * B) / B * B + i % B) < N * (m * B) :=
      enc_lt hq hz
    have ht : i / (m * B) * (N * (m * B))
        + (q * (m * B) + (i % (m * B) / B * B + i % B)) < A * (N * (m * B)) :=
      enc_lt ha hy
    rw [← List.getD_eq_getElem _ d₀ h1]
    rw [sliceDim_getD A m B N q d₀ _ i hiAC]
    have e1 : i / (m * B) * (N * (m * B)) + (q * m + i % (m * B) / B) * B
        + i % B
        = i / (m * B) * (N * (m * B))
          + (q * (m * B) + (i % (m * B) / B * B + i % B)) := by ring
    rw [e1]
    have eMB : ls.length * m * B = N * (m * B) := by rw [hN]; ring
    rw [catDim_getD A m B d₀ ls _ (by rw [eMB]; exact ht), eMB]
    rw [enc_div hy, enc_mod hy]
    have e4 : q * (m * B) + (i % (m * B) / B * B + i % B)
        = (q * m + i % (m * B) / B) * B + i % B := by ring
    rw [e4, enc_div hb, enc_div hj, enc_mod hj]
    have e5 : i / (m * B) * (N * (m * B))
        + ((q * m + i % (m * B) / B) * B + i % B)
        = (i / (m * B) * (N * m) + (q * m + i % (m * B) / B)) * B + i % B := by
      ring
    rw [e5, enc_mod hb]
    have hrecomp : i / (m * B) * (m * B) + (i % (m * B) / B * B + i % B)
        = i := by
      have hmm : i % (m * B) % B = i % B :=
        Nat.mod_mod_of_dvd i (dvd_mul_left B m)
      have h2' : i % (m * B) / B * B + i % (m * B) % B = i % (m * B) := by
        rw [mul_comm]; exact Nat.div_add_mod (i % (m * B)) B
      have h1' : i / (m * B) * (m * B) + i % (m * B) = i := by
        rw [mul_comm]; exact Nat.div_add_mod i (m * B)
      rw [hmm] at h2'
      omega
    have e6 : i / (m * B) * (m * B) + i % (m * B) / B * B + i % B
        = i / (m * B) * (m * B) + (i % (m * B) / B * B + i % B) := by ring
    rw [e6, hrecomp]
    exact List.getD_eq_getElem _ _ h2

theorem normDim_lt (len : Nat) (dim : Int) (h1 : -(len : Int) ≤ dim)
    (h2 : dim < len) : normDim len dim < len := by
  unfold normDim
  split <;> omega

theorem getD_shape (world : List (Tensor α)) (s : List Nat) (rank : Nat)
    (hr : rank < world.length) (hsh : ∀ t ∈ world, t.shape = s) :
    (world.getD rank dummyT).shape = s := by
  rw [List.getD_eq_getElem _ _ hr]
  exact hsh _ (List.getElem_mem hr)

theorem getD_drop (l : List α) (n m : Nat) (d : α) (h : n + m < l.length) :
    (l.drop n).getD m d = l.getD (n + m) d := by
  rw [List.getD_eq_getElem _ _ (by rw [List.length_drop]; omega),
    List.getD_eq_getElem _ _ h]
  simp [List.getElem_drop]

theorem prod_drop_decomp (s : List Nat) (dn : Nat) (h : dn < s.length) :
    (s.drop dn).prod = s.getD dn 0 * (s.drop (dn + 1)).prod := by
  rw [List.drop_eq_getElem_cons h, List.prod_cons, List.getD_eq_getElem _ _ h]

theorem prod_decomp (s : List Nat) (dn : Nat) (h : dn < s.length) :
    s.prod = (s.take dn).prod * (s.getD dn 0 * (s.drop (dn + 1)).prod) := by
  conv_lhs => rw [← List.prod_take_mul_prod_drop s dn]
  rw [prod_drop_decomp s dn h]

theorem map_getD_data (world : List (Tensor α)) (q : Nat)
    (hq : q < world.length) :
    (world.map Tensor.data).getD q [] = (world.getD q dummyT).data := by
  rw [List.getD_eq_getElem _ [] (by simpa using hq),
    List.getD_eq_getElem _ _ hq, List.getElem_map]

theorem getD_take (s : List Nat) (dn i : Nat) (h : i < dn) (h2 : i < s.length) :
    (s.take dn).getD i 0 = s.getD i 0 := by
  rw [List.getD_eq_getElem _ _ (by rw [List.length_take]; omega),
    List.getD_eq_getElem _ _ h2]
  simp [List.getElem_take]

theorem flatten_length_uniform (L : Nat) :
    ∀ (ls : List (List α)), (∀ l ∈ ls, l.length = L) →
      ls.flatten.length = ls.length * L := by
  intro ls
  induction ls with
  | nil => simp
  | cons hd tl ih =>
    intro h
    rw [List.flatten_cons, List.length_append, h hd (by simp),
      ih (fun l hl => h l (by simp [hl])), List.length_cons]
    ring

/-- A batch of tensors sharing dtype, device, and trailing dimensions is a
valid `torch.cat(…, dim=0)` input. -/
theorem catOk_of_uniform (tensors : List (Tensor α)) (sizes : List Nat)
    (dt : DType) (dev : Device) (hne : tensors ≠ [])
    (hsh : ∀ t ∈ tensors, t.shape = sizes)
    (hdt : ∀ t ∈ tensors, t.dtype = dt)
    (hdev : ∀ t ∈ tensors, t.device = dev) :
    catOk tensors = true := by
  match tensors, hne with
  | t₀ :: rest, _ =>
    simp only [catOk, List.all_eq_true]
    intro t ht
    have h0 : t₀ ∈ t₀ :: rest := by simp
    simp [hdt t ht, hdt t₀ h0, hdev t ht, hdev t₀ h0, hsh t ht, hsh t₀ h0]

theorem take_one_headD (l : List α) (d : α) (h : l ≠ []) :
    l.take 1 = [l.headD d] := by
  cases l with
  | nil => exact absurd rfl h
  | cons a t => rfl

theorem take_cons_replicate (c n : Nat) (hc : 0 < c) (hle : c ≤ n) (x o : α) :
    List.take c (x :: List.replicate (n - 1) o)
      = x :: List.replicate (c - 1) o := by
  obtain ⟨c', rfl⟩ : ∃ c', c = c' + 1 := ⟨c - 1, by omega⟩
  rw [List.take_succ_cons, List.take_replicate]
  have e : c' ⊓ (n - 1) = c' + 1 - 1 := by omega
  rw [e]

theorem drop_cons_replicate (k n : Nat) (hk : 0 < k) (x o : α) :
    List.drop k (x :: List.replicate (n - 1) o)
      = List.replicate (n - k) o := by
  obtain ⟨k', rfl⟩ : ∃ k', k = k' + 1 := ⟨k - 1, by omega⟩
  rw [List.drop_succ_cons, List.drop_replicate]
  have e : n - 1 - k' = n - (k' + 1) := by omega
  rw [e]

/-! ### Claim theorems -/

/-- Claim C2: for every tensor, every valid dim (possibly negative, with
`-rank ≤ dim < rank`) and every tensor-parallel world size `N > 1`,
`tensor_model_parallel_all_gather` returns a tensor of the same rank whose
size along `dim` is `N` times the input size along `dim` (all other
dimensions unchanged), and slicing the result into `N` equal pieces along
`dim` recovers rank `r`'s input tensor at position `r` (rank order
preserved). -/
theorem C2_all_gather_shape_and_roundtrip (d₀ : α) (world : List (Tensor α))
    (s : List Nat) (rank : Nat) (dim : Int)
    (hws : 1 < world.length) (hr : rank < world.length)
    (hsh : ∀ t ∈ world, t.shape = s)
    (hlen : ∀ t ∈ world, t.data.length = s.prod)
    (hdim1 : -(s.length : Int) ≤ dim) (hdim2 : dim < (s.length : Int)) :
    ∃ out, tensor_model_parallel_all_gather d₀ world rank dim = some out ∧
      out.shape.length = s.length ∧
      out.shape.getD (normDim s.length dim) 0
        = world.length * s.getD (normDim s.length dim) 0 ∧
      (∀ i, i < s.length → i ≠ normDim s.length dim →
        out.shape.getD i 0 = s.getD i 0) ∧
      ∀ q, q < world.length →
        sliceDim ((s.take (normDim s.length dim)).prod)
          (s.getD (normDim s.length dim) 0)
          ((s.drop (normDim s.length dim + 1)).prod)
          world.length q d₀ out.data
          = (world.getD q dummyT).data := by
  have hshape := getD_shape world s rank hr hsh
  have hnd : (world.getD rank dummyT).ndim = s.length := by
    rw [Tensor.ndim, hshape]
  have hdn : normDim s.length dim < s.length :=
    normDim_lt s.length dim hdim1 hdim2
  have hlt : (s.take (normDim s.length dim)).length = normDim s.length dim := by
    rw [List.length_take]; omega
  refine ⟨⟨(world.getD rank dummyT).dtype, (world.getD rank dummyT).device,
    s.take (normDim s.length dim)
      ++ [world.length * s.getD (normDim s.length dim) 0]
      ++ s.drop (normDim s.length dim + 1),
    movedimZero world.length ((s.take (normDim s.length dim)).prod)
      ((s.drop (normDim s.length dim)).prod) d₀
      (world.map Tensor.data).flatten⟩, ?_, ?_, ?_, ?_, ?_⟩
  · simp only [tensor_model_parallel_all_gather, hnd, hshape]
    rw [if_neg (by omega), if_neg (by omega)]
  · simp only [List.length_append, List.length_take, List.length_drop,
      List.length_cons, List.length_nil]
    omega
  · rw [List.append_assoc, List.getD_append_right _ _ _ _ (by omega),
      hlt, Nat.sub_self]
    rfl
  · intro i hi hne
    rcases Nat.lt_or_ge i (normDim s.length dim) with hlt2 | hge
    · rw [List.append_assoc, List.getD_append _ _ _ _ (by omega)]
      exact getD_take s _ i hlt2 hi
    · have hgt : normDim s.length dim < i := by omega
      rw [List.append_assoc, List.getD_append_right _ _ _ _ (by omega), hlt]
      rw [List.getD_append_right _ _ _ _ (by simp; omega)]
      simp only [List.length_cons, List.length_nil]
      rw [getD_drop s _ _ _ (by omega)]
      congr 1
      omega
  · intro q hq
    rw [prod_drop_decomp s _ hdn]
    rw [sliceDim_movedimZero _ _ _ world.length q d₀ (world.map Tensor.data)
      (by
        intro l hl
        obtain ⟨t, ht, rfl⟩ := List.mem_map.mp hl
        rw [hlen t ht]
        exact prod_decomp s _ hdn)
      (by rw [List.length_map]) hq]
    exact map_getD_data world q hq

/-- Witness for C2: two ranks with `[2,2]`-tensors, `dim = -1`. -/
theorem C2_all_gather_shape_and_roundtrip_witness :
    ∃ out, tensor_model_parallel_all_gather (0 : Int)
        [⟨DType.float32, Device.cuda, [2, 2], [1, 2, 3, 4]⟩,
         ⟨DType.float32, Device.cuda, [2, 2], [5, 6, 7, 8]⟩] 0 (-1)
        = some out ∧
      out.shape.length = ([2, 2] : List Nat).length ∧
      out.shape.getD (normDim 2 (-1)) 0
        = 2 * ([2, 2] : List Nat).getD (normDim 2 (-1)) 0 ∧
      (∀ i, i < ([2, 2] : List Nat).length → i ≠ normDim 2 (-1) →
        out.shape.getD i 0 = ([2, 2] : List Nat).getD i 0) ∧
      ∀ q, q < ([⟨DType.float32, Device.cuda, [2, 2], [1, 2, 3, 4]⟩,
          ⟨DType.float32, Device.cuda, [2, 2], [5, 6, 7, 8]⟩] :
            List (Tensor Int)).length →
        sliceDim ((([2, 2] : List Nat).take (normDim 2 (-1))).prod)
          (([2, 2] : List Nat).getD (normDim 2 (-1)) 0)
          ((([2, 2] : List Nat).drop (normDim 2 (-1) + 1)).prod)
          2 q 0 out.data
          = (([⟨DType.float32, Device.cuda, [2, 2], [1, 2, 3, 4]⟩,
              ⟨DType.float32, Device.cuda, [2, 2], [5, 6, 7, 8]⟩] :
                List (Tensor Int)).getD q dummyT).data :=
  C2_all_gather_shape_and_roundtrip 0
    [⟨DType.float32, Device.cuda, [2, 2], [1, 2, 3, 4]⟩,
     ⟨DType.float32, Device.cuda, [2, 2], [5, 6, 7, 8]⟩] [2, 2] 0 (-1)
    (by decide) (by decide) (by decide) (by decide) (by decide) (by decide)

/-- Claim C7: for world size `> 1` and valid `dim`,
`tensor_model_parallel_gather` produces a non-absent result on rank `dst`
only; that result is the rank-ordered concatenation along `dim` of all
ranks' inputs (slicing it into `N` pieces along `dim` recovers rank `q`'s
tensor at position `q`); every other rank gets `None`, not an error. -/
theorem C7_gather_dst_only (d₀ : α) (world : List (Tensor α)) (s : List Nat)
    (dst : Nat) (dim : Int)
    (hws : 1 < world.length) (hdst : dst < world.length)
    (hsh : ∀ t ∈ world, t.shape = s)
    (hlen : ∀ t ∈ world, t.data.length = s.prod)
    (hdim1 : -(s.length : Int) ≤ dim) (hdim2 : dim < (s.length : Int)) :
    (∀ rank, rank < world.length → rank ≠ dst →
      tensor_model_parallel_gather d₀ world rank dst dim = Except.ok none) ∧
    ∃ out, tensor_model_parallel_gather d₀ world dst dst dim
        = Except.ok (some out) ∧
      out.shape.length = s.length ∧
      out.shape.getD (normDim s.length dim) 0
        = world.length * s.getD (normDim s.length dim) 0 ∧
      (∀ i, i < s.length → i ≠ normDim s.length dim →
        out.shape.getD i 0 = s.getD i 0) ∧
      ∀ q, q < world.length →
        sliceDim ((s.take (normDim s.length dim)).prod)
          (s.getD (normDim s.length dim) 0)
          ((s.drop (normDim s.length dim + 1)).prod)
          world.length q d₀ out.data
          = (world.getD q dummyT).data := by
  have hdn : normDim s.length dim < s.length :=
    normDim_lt s.length dim hdim1 hdim2
  have hlt : (s.take (normDim s.length dim)).length = normDim s.length dim := by
    rw [List.length_take]; omega
  constructor
  · intro rank hr hne
    have hshape := getD_shape world s rank hr hsh
    have hnd : (world.getD rank dummyT).ndim = s.length := by
      rw [Tensor.ndim, hshape]
    simp only [tensor_model_parallel_gather, hnd, hshape]
    rw [if_neg (by omega), if_neg (by omega), if_neg hne]
  · have hshape := getD_shape world s dst hdst hsh
    have hnd : (world.getD dst dummyT).ndim = s.length := by
      rw [Tensor.ndim, hshape]
    refine ⟨⟨(world.getD dst dummyT).dtype, (world.getD dst dummyT).device,
      s.take (normDim s.length dim)
        ++ [world.length * s.getD (normDim s.length dim) 0]
        ++ s.drop (normDim s.length dim + 1),
      catDim ((s.take (normDim s.length dim)).prod)
        (s.getD (normDim s.length dim) 0)
        ((s.drop (normDim s.length dim + 1)).prod) d₀
        (world.map Tensor.data)⟩, ?_, ?_, ?_, ?_, ?_⟩
    · simp only [tensor_model_parallel_gather, hnd, hshape]
      rw [if_neg (by omega), if_neg (by omega), if_pos trivial]
    · simp only [List.length_append, List.length_take, List.length_drop,
        List.length_cons, List.length_nil]
      omega
    · rw [List.append_assoc, List.getD_append_right _ _ _ _ (by omega),
        hlt, Nat.sub_self]
      rfl
    · intro i hi hne
      rcases Nat.lt_or_ge i (normDim s.length dim) with hlt2 | hge
      · rw [List.append_assoc, List.getD_append _ _ _ _ (by omega)]
        exact getD_take s _ i hlt2 hi
      · have hgt : normDim s.length dim < i := by omega
        rw [List.append_assoc, List.getD_append_right _ _ _ _ (by omega), hlt]
        rw [List.getD_append_right _ _ _ _ (by simp; omega)]
        simp only [List.length_cons, List.length_nil]
        rw [getD_drop s _ _ _ (by omega)]
        congr 1
        omega
    · intro q hq
      rw [sliceDim_catDim _ _ _ world.length q d₀ (world.map Tensor.data)
        (by
          intro l hl
          obtain ⟨t, ht, rfl⟩ := List.mem_map.mp hl
          rw [hlen t ht]
          exact prod_decomp s _ hdn)
        (by rw [List.length_map]) hq]
      exact map_getD_data world q hq

/-- Witness for C7: two ranks, `dst = 1`, `dim = 1`. -/
theorem C7_gather_dst_only_witness :
    (∀ rank, rank < ([⟨DType.float32, Device.cuda, [2, 2], [1, 2, 3, 4]⟩,
        ⟨DType.float32, Device.cuda, [2, 2], [5, 6, 7, 8]⟩] :
          List (Tensor Int)).length → rank ≠ 1 →
      tensor_model_parallel_gather (0 : Int)
        [⟨DType.float32, Device.cuda, [2, 2], [1, 2, 3, 4]⟩,
         ⟨DType.float32, Device.cuda, [2, 2], [5, 6, 7, 8]⟩] rank 1 1
        = Except.ok none) ∧
    ∃ out, tensor_model_parallel_gather (0 : Int)
        [⟨DType.float32, Device.cuda, [2, 2], [1, 2, 3, 4]⟩,
         ⟨DType.float32, Device.cuda, [2, 2], [5, 6, 7, 8]⟩] 1 1 1
        = Except.ok (some out) ∧
      out.shape.length = ([2, 2] : List Nat).length ∧
      out.shape.getD (normDim 2 1) 0
        = 2 * ([2, 2] : List Nat).getD (normDim 2 1) 0 ∧
      (∀ i, i < ([2, 2] : List Nat).length → i ≠ normDim 2 1 →
        out.shape.getD i 0 = ([2, 2] : List Nat).getD i 0) ∧
      ∀ q, q < ([⟨DType.float32, Device.cuda, [2, 2], [1, 2, 3, 4]⟩,
          ⟨DType.float32, Device.cuda, [2, 2], [5, 6, 7, 8]⟩] :
            List (Tensor Int)).length →
        sliceDim ((([2, 2] : List Nat).take (normDim 2 1)).prod)
          (([2, 2] : List Nat).getD (normDim 2 1) 0)
          ((([2, 2] : List Nat).drop (normDim 2 1 + 1)).prod)
          2 q 0 out.data
          = (([⟨DType.float32, Device.cuda, [2, 2], [1, 2, 3, 4]⟩,
              ⟨DType.float32, Device.cuda, [2, 2], [5, 6, 7, 8]⟩] :
                List (Tensor Int)).getD q dummyT).data :=
  C7_gather_dst_only 0
    [⟨DType.float32, Device.cuda, [2, 2], [1, 2, 3, 4]⟩,
     ⟨DType.float32, Device.cuda, [2, 2], [5, 6, 7, 8]⟩] [2, 2] 1 1
    (by decide) (by decide) (by decide) (by decide) (by decide) (by decide)

/-- Claim C8: `send_next_rank` concatenates its input tensors along axis 0
into one combined buffer before any wire activity, and `recv_prev_rank`
splits the received combined buffer into exactly `num_tensors` equal chunks
of shape `sizes`; under the `send_recv` strategy the receiver's list equals
the sender's list whenever every sent tensor has shape `sizes` and the
agreed dtype and device. -/
theorem C8_send_recv_roundtrip [One α] (env : PPEnv)
    (tensors : List (Tensor α)) (sizes : List Nat) (dt : DType)
    (dev : Device) (d₀ : α) (tpShards : Nat → List α)
    (hm : env.commMethod = CommMethod.send_recv)
    (hne : tensors ≠ [])
    (hsh : ∀ t ∈ tensors, t.shape = sizes)
    (hdt : ∀ t ∈ tensors, t.dtype = dt)
    (hdev : ∀ t ∈ tensors, t.device = dev)
    (hlen : ∀ t ∈ tensors, t.data.length = sizes.prod) :
    send_next_rank env tensors
      = some ⟨env.ppNextRank, (tensors.map Tensor.data).flatten⟩ ∧
    recv_prev_rank env tensors.length sizes dt dev d₀
      ((tensors.map Tensor.data).flatten) tpShards = some tensors := by
  have hcat := catOk_of_uniform tensors sizes dt dev hne hsh hdt hdev
  have hflat : (tensors.map Tensor.data).flatten.length
      = tensors.length * sizes.prod := by
    rw [flatten_length_uniform sizes.prod _ (by
      intro l hl
      obtain ⟨t, ht, rfl⟩ := List.mem_map.mp hl
      exact hlen t ht), List.length_map]
  constructor
  · simp only [send_next_rank, hcat, hm]
    simp
  · simp only [recv_prev_rank, hm]
    rw [if_neg (by
      simp only [List.length_eq_zero]
      exact hne)]
    rw [if_pos hflat]
    congr 1
    apply List.ext_getElem
    · simp [chunk0]
    · intro i h1 h2
      have hi : i < tensors.length := by simpa using h2
      have hmem := List.getElem_mem h2
      simp only [chunk0, List.getElem_map, List.getElem_range]
      rw [shard_of_flatten sizes.prod (tensors.map Tensor.data) i (by
          intro l hl
          obtain ⟨t, ht, rfl⟩ := List.mem_map.mp hl
          exact hlen t ht) (by simpa using hi)]
      rw [map_getD_data tensors i hi, List.getD_eq_getElem _ _ h2]
      rw [← hdt _ hmem, ← hdev _ hmem, ← hsh _ hmem]

/-- Witness for C8: two `[2]`-tensors over `Int`. -/
theorem C8_send_recv_roundtrip_witness :
    send_next_rank (⟨3, 1, 2, CommMethod.send_recv, 0, 1⟩ : PPEnv)
      ([⟨DType.float32, Device.cuda, [2], [10, 20]⟩,
        ⟨DType.float32, Device.cuda, [2], [30, 40]⟩] : List (Tensor Int))
      = some ⟨3, [10, 20, 30, 40]⟩ ∧
    recv_prev_rank (⟨3, 1, 2, CommMethod.send_recv, 0, 1⟩ : PPEnv)
      2 [2] DType.float32 Device.cuda (0 : Int) [10, 20, 30, 40]
      (fun _ => [])
      = some [⟨DType.float32, Device.cuda, [2], [10, 20]⟩,
              ⟨DType.float32, Device.cuda, [2], [30, 40]⟩] :=
  C8_send_recv_roundtrip (⟨3, 1, 2, CommMethod.send_recv, 0, 1⟩ : PPEnv)
    [⟨DType.float32, Device.cuda, [2], [10, 20]⟩,
     ⟨DType.float32, Device.cuda, [2], [30, 40]⟩] [2] DType.float32
    Device.cuda 0 (fun _ => []) rfl (by decide) (by decide) (by decide)
    (by decide) (by decide)

/-- Claim C9 (implicit): under the `signal` strategy, `recv_prev_rank`
initialises its combined buffer to all ones and receives a single scalar
into the first flattened element; every element of every returned chunk
except the first element of the first chunk equals one, and that first
element holds the sender's first flattened element — no payload content is
delivered in signal mode. -/
theorem C9_signal_mode [One α] (envS envR : PPEnv)
    (tensors : List (Tensor α)) (num : Nat) (sizes : List Nat) (dt : DType)
    (dev : Device) (d₀ : α) (tpShards : Nat → List α)
    (hmS : envS.commMethod = CommMethod.signal)
    (hmR : envR.commMethod = CommMethod.signal)
    (hcat : catOk tensors = true)
    (hnum : 0 < num) (hsz : 0 < sizes.prod)
    (hflat : (tensors.map Tensor.data).flatten ≠ []) :
    ∃ msg, send_next_rank envS tensors = some msg ∧
      msg.payload = [(tensors.map Tensor.data).flatten.headD d₀] ∧
      ∃ out, recv_prev_rank envR num sizes dt dev d₀ msg.payload tpShards
          = some out ∧
        out.length = num ∧
        (∀ i, i < num → (out.getD i dummyT).shape = sizes) ∧
        (out.getD 0 dummyT).data
          = (tensors.map Tensor.data).flatten.headD d₀
              :: List.replicate (sizes.prod - 1) (1 : α) ∧
        (∀ i, 0 < i → i < num →
          (out.getD i dummyT).data = List.replicate sizes.prod (1 : α)) := by
  have hlen0 : (tensors.map Tensor.data).flatten.length ≠ 0 := fun h =>
    hflat (List.eq_nil_of_length_eq_zero h)
  have hn : 0 < num * sizes.prod := Nat.mul_pos hnum hsz
  have hcle : sizes.prod ≤ num * sizes.prod :=
    Nat.le_mul_of_pos_left _ hnum
  refine ⟨⟨envS.ppNextRank, (tensors.map Tensor.data).flatten.take 1⟩,
    ?_, ?_, ?_⟩
  · simp only [send_next_rank, hcat, hmS]
    rw [if_neg (by simp), if_neg hlen0]
  · exact take_one_headD _ d₀ hflat
  · have hset : (List.replicate (num * sizes.prod) (1 : α)).set 0
        ((tensors.map Tensor.data).flatten.headD d₀)
        = (tensors.map Tensor.data).flatten.headD d₀
            :: List.replicate (num * sizes.prod - 1) (1 : α) := by
      have e : num * sizes.prod = (num * sizes.prod - 1) + 1 := by omega
      conv_lhs => rw [e, List.replicate_succ, List.set_cons_zero]
    refine ⟨chunk0 num sizes dt dev
      ((tensors.map Tensor.data).flatten.headD d₀
        :: List.replicate (num * sizes.prod - 1) (1 : α)), ?_, ?_, ?_, ?_, ?_⟩
    · simp only [recv_prev_rank, hmR]
      rw [if_neg (by omega), if_neg (by
        rw [take_one_headD _ d₀ hflat]
        simp [hn.ne'])]
      rw [take_one_headD _ d₀ hflat, List.getD_cons_zero, hset]
    · simp [chunk0]
    · intro i hi
      unfold chunk0
      rw [getD_range_map _ _ _ _ hi]
    · unfold chunk0
      rw [getD_range_map _ _ _ _ hnum]
      rw [zero_mul, List.drop_zero]
      exact take_cons_replicate sizes.prod (num * sizes.prod) hsz hcle
        ((tensors.map Tensor.data).flatten.headD d₀) (1 : α)
    · intro i hipos hi
      unfold chunk0
      rw [getD_range_map _ _ _ _ hi]
      show List.take sizes.prod (List.drop (i * sizes.prod)
        ((tensors.map Tensor.data).flatten.headD d₀
          :: List.replicate (num * sizes.prod - 1) (1 : α)))
        = List.replicate sizes.prod (1 : α)
      rw [drop_cons_replicate (i * sizes.prod) (num * sizes.prod)
        (Nat.mul_pos hipos hsz), List.take_replicate]
      have e : (i + 1) * sizes.prod = i * sizes.prod + sizes.prod := by ring
      have hle2 : (i + 1) * sizes.prod ≤ num * sizes.prod :=
        Nat.mul_le_mul_right _ (by omega)
      have e2 : sizes.prod ⊓ (num * sizes.prod - i * sizes.prod)
          = sizes.prod := by omega
      rw [e2]

/-- Witness for C9: two `[2]`-tensors, signal strategy. -/
theorem C9_signal_mode_witness :
    ∃ msg, send_next_rank (⟨3, 1, 2, CommMethod.signal, 0, 1⟩ : PPEnv)
        ([⟨DType.float32, Device.cuda, [2], [10, 20]⟩,
          ⟨DType.float32, Device.cuda, [2], [30, 40]⟩] : List (Tensor Int))
        = some msg ∧
      msg.payload = [(([⟨DType.float32, Device.cuda, [2], [10, 20]⟩,
          ⟨DType.float32, Device.cuda, [2], [30, 40]⟩] :
            List (Tensor Int)).map Tensor.data).flatten.headD 0] ∧
      ∃ out, recv_prev_rank (⟨3, 1, 2, CommMethod.signal, 0, 1⟩ : PPEnv)
          2 [2] DType.float32 Device.cuda (0 : Int) msg.payload (fun _ => [])
          = some out ∧
        out.length = 2 ∧
        (∀ i, i < 2 → (out.getD i dummyT).shape = [2]) ∧
        (out.getD 0 dummyT).data
          = (([⟨DType.float32, Device.cuda, [2], [10, 20]⟩,
              ⟨DType.float32, Device.cuda, [2], [30, 40]⟩] :
                List (Tensor Int)).map Tensor.data).flatten.headD 0
              :: List.replicate (([2] : List Nat).prod - 1) (1 : Int) ∧
        (∀ i, 0 < i → i < 2 →
          (out.getD i dummyT).data
            = List.replicate ([2] : List Nat).prod (1 : Int)) :=
  C9_signal_mode (⟨3, 1, 2, CommMethod.signal, 0, 1⟩ : PPEnv)
    (⟨3, 1, 2, CommMethod.signal, 0, 1⟩ : PPEnv)
    [⟨DType.float32, Device.cuda, [2], [10, 20]⟩,
     ⟨DType.float32, Device.cuda, [2], [30, 40]⟩] 2 [2] DType.float32
    Device.cuda 0 (fun _ => []) rfl rfl (by decide) (by decide) (by decide)
    (by decide)

/-- Counterexample to claim C5 as stated: with tensor-parallel world size 1
the world-size bypass precedes the dim assertion, so an out-of-range `dim`
(`dim = 1` for a rank-1 tensor) does NOT fail — both functions return the
input unchanged instead of raising InvalidArgument. -/
theorem C5_counterexample :
    tensor_model_parallel_all_gather (0 : Int)
      [⟨DType.float32, Device.cuda, [2], [1, 2]⟩] 0 1
      = some ⟨DType.float32, Device.cuda, [2], [1, 2]⟩
    ∧ tensor_model_parallel_gather (0 : Int)
      [⟨DType.float32, Device.cuda, [2], [1, 2]⟩] 0 0 1
      = Except.ok (some ⟨DType.float32, Device.cuda, [2], [1, 2]⟩) := by
  constructor <;> rfl

/-- Claim C5 (amended): for every tensor-parallel world size greater than 1,
`tensor_model_parallel_all_gather` and `tensor_model_parallel_gather` fail
with an InvalidArgument condition (the dim assertion) whenever `dim` is
outside `-rank ≤ dim < rank`, producing no result; with world size 1 the
bypass returns the input without validating `dim` (see the
counterexample). -/
theorem C5_invalid_dim_error (d₀ : α) (world : List (Tensor α))
    (rank dst : Nat) (dim : Int) (s : List Nat)
    (hws : 1 < world.length) (hr : rank < world.length)
    (hsh : ∀ t ∈ world, t.shape = s)
    (hdim : dim < -(s.length : Int) ∨ (s.length : Int) ≤ dim) :
    tensor_model_parallel_all_gather d₀ world rank dim = none ∧
    tensor_model_parallel_gather d₀ world rank dst dim = Except.error () := by
  have hshape := getD_shape world s rank hr hsh
  have hnd : (world.getD rank dummyT).ndim = s.length := by
    rw [Tensor.ndim, hshape]
  constructor
  · simp only [tensor_model_parallel_all_gather, hnd]
    rw [if_neg (by omega), if_pos hdim]
  · simp only [tensor_model_parallel_gather, hnd]
    rw [if_neg (by omega), if_pos hdim]

/-- Witness for C5 (amended): two ranks, rank-1 tensors, `dim = 1`. -/
theorem C5_invalid_dim_error_witness :
    tensor_model_parallel_all_gather (0 : Int)
      [⟨DType.float32, Device.cuda, [2], [1, 2]⟩,
       ⟨DType.float32, Device.cuda, [2], [3, 4]⟩] 0 1 = none ∧
    tensor_model_parallel_gather (0 : Int)
      [⟨DType.float32, Device.cuda, [2], [1, 2]⟩,
       ⟨DType.float32, Device.cuda, [2], [3, 4]⟩] 0 0 1
      = Except.error () :=
  C5_invalid_dim_error 0
    [⟨DType.float32, Device.cuda, [2], [1, 2]⟩,
     ⟨DType.float32, Device.cuda, [2], [3, 4]⟩] 0 0 1 [2]
    (by decide) (by decide) (by decide) (by decide)

/-- Claim C1: under the `allgather` pipeline strategy, point-to-point
transfer round-trips.  Each sending TP rank `r` transmits row `r` of the
combined buffer reshaped to `[tp_world_size, total/tp_world_size]`
(`send_next_rank` with method `allgather`); each receiving rank receives its
peer's shard and all-gathers the shards over the TP group
(`recv_prev_rank`).  The reconstructed buffer on every receiving TP rank
equals the sender's original combined buffer, and the returned chunk list
coincides with what the `send_recv` reference strategy delivers. -/
theorem C1_allgather_pipeline_roundtrip [One α] (N nxt prv pws : Nat)
    (tensors : List (Tensor α)) (sizes : List Nat) (dt : DType)
    (dev : Device) (d₀ : α)
    (hne : tensors ≠ [])
    (hsh : ∀ t ∈ tensors, t.shape = sizes)
    (hdt : ∀ t ∈ tensors, t.dtype = dt)
    (hdev : ∀ t ∈ tensors, t.device = dev)
    (hlen : ∀ t ∈ tensors, t.data.length = sizes.prod)
    (hN : 0 < N) (hdvd : N ∣ tensors.length * sizes.prod) :
    ∃ msgs : Nat → Msg α,
      (∀ r, r < N →
        send_next_rank ⟨nxt, prv, pws, CommMethod.allgather, r, N⟩ tensors
          = some (msgs r)) ∧
      ∀ r0, r0 < N →
        ∃ out,
          recv_prev_rank ⟨nxt, prv, pws, CommMethod.allgather, r0, N⟩
            tensors.length sizes dt dev d₀ (msgs r0).payload
            (fun r => (msgs r).payload) = some out ∧
          recv_prev_rank ⟨nxt, prv, pws, CommMethod.send_recv, r0, N⟩
            tensors.length sizes dt dev d₀ ((tensors.map Tensor.data).flatten)
            (fun r => (msgs r).payload) = some out ∧
          (out.map Tensor.data).flatten = (tensors.map Tensor.data).flatten := by
  have hcat := catOk_of_uniform tensors sizes dt dev hne hsh hdt hdev
  have hflat : (tensors.map Tensor.data).flatten.length
      = tensors.length * sizes.prod := by
    rw [flatten_length_uniform sizes.prod _ (by
      intro l hl
      obtain ⟨t, ht, rfl⟩ := List.mem_map.mp hl
      exact hlen t ht), List.length_map]
  have hnum : tensors.length ≠ 0 := by
    intro h
    exact hne (List.eq_nil_of_length_eq_zero h)
  have hdvd2 : N ∣ (tensors.map Tensor.data).flatten.length := by
    rw [hflat]; exact hdvd
  have hkn : N * ((tensors.map Tensor.data).flatten.length / N)
      = (tensors.map Tensor.data).flatten.length :=
    Nat.mul_div_cancel' hdvd2
  have hshardlen : ∀ r, r < N →
      ((((tensors.map Tensor.data).flatten).drop
        (r * ((tensors.map Tensor.data).flatten.length / N))).take
        ((tensors.map Tensor.data).flatten.length / N)).length
      = (tensors.map Tensor.data).flatten.length / N := by
    intro r hr
    rw [List.length_take, List.length_drop]
    have h1 : (r + 1) * ((tensors.map Tensor.data).flatten.length / N)
        ≤ N * ((tensors.map Tensor.data).flatten.length / N) :=
      Nat.mul_le_mul_right _ (by omega)
    have e : (r + 1) * ((tensors.map Tensor.data).flatten.length / N)
        = r * ((tensors.map Tensor.data).flatten.length / N)
          + ((tensors.map Tensor.data).flatten.length / N) := by ring
    omega
  refine ⟨fun r => ⟨nxt,
    (((tensors.map Tensor.data).flatten).drop
      (r * ((tensors.map Tensor.data).flatten.length / N))).take
      ((tensors.map Tensor.data).flatten.length / N)⟩, ?_, ?_⟩
  · intro r hr
    simp only [send_next_rank, hcat, sendNextRankSliced]
    rw [if_neg (by simp)]
    rw [if_neg (by push_neg; exact ⟨by omega, hdvd2, hr⟩)]
  · intro r0 hr0
    have hgathered : ((List.range N).flatMap fun r =>
        if r = r0 then
          (((tensors.map Tensor.data).flatten).drop
            (r0 * ((tensors.map Tensor.data).flatten.length / N))).take
            ((tensors.map Tensor.data).flatten.length / N)
        else
          (((tensors.map Tensor.data).flatten).drop
            (r * ((tensors.map Tensor.data).flatten.length / N))).take
            ((tensors.map Tensor.data).flatten.length / N))
        = (tensors.map Tensor.data).flatten := by
      have hcongr : ∀ r ∈ List.range N,
          (if r = r0 then
            (((tensors.map Tensor.data).flatten).drop
              (r0 * ((tensors.map Tensor.data).flatten.length / N))).take
              ((tensors.map Tensor.data).flatten.length / N)
          else
            (((tensors.map Tensor.data).flatten).drop
              (r * ((tensors.map Tensor.data).flatten.length / N))).take
              ((tensors.map Tensor.data).flatten.length / N))
          = (((tensors.map Tensor.data).flatten).drop
              (r * ((tensors.map Tensor.data).flatten.length / N))).take
              ((tensors.map Tensor.data).flatten.length / N) := by
        intro r _
        by_cases h : r = r0
        · rw [if_pos h, h]
        · rw [if_neg h]
      rw [List.flatMap_congr hcongr]
      exact concat_shards _ N _ (by omega)
    refine ⟨chunk0 tensors.length sizes dt dev
      ((tensors.map Tensor.data).flatten), ?_, ?_, ?_⟩
    · simp only [recv_prev_rank, recvNextRankSliced]
      rw [if_neg hnum]
      rw [if_neg (by
        push_neg
        refine ⟨by omega, by rw [← hflat]; exact hdvd2, hr0, ?_⟩
        rw [hshardlen r0 hr0, hflat])]
      rw [hgathered]
      rw [if_pos hflat]
      rfl
    · simp only [recv_prev_rank]
      rw [if_neg hnum, if_pos hflat]
    · rw [chunk0, List.map_map]
      have : (Tensor.data ∘ fun i =>
          (⟨dt, dev, sizes, ((tensors.map Tensor.data).flatten.drop
            (i * sizes.prod)).take sizes.prod⟩ : Tensor α))
          = fun i => ((tensors.map Tensor.data).flatten.drop
            (i * sizes.prod)).take sizes.prod := rfl
      rw [this, ← List.flatMap_def]
      exact concat_shards sizes.prod tensors.length _ hflat

/-- Witness for C1: `tp_world_size = 2`, two `[2]`-tensors (4 elements). -/
theorem C1_allgather_pipeline_roundtrip_witness :
    ∃ msgs : Nat → Msg Int,
      (∀ r, r < 2 →
        send_next_rank ⟨7, 3, 2, CommMethod.allgather, r, 2⟩
          ([⟨DType.float32, Device.cuda, [2], [1, 2]⟩,
            ⟨DType.float32, Device.cuda, [2], [3, 4]⟩] : List (Tensor Int))
          = some (msgs r)) ∧
      ∀ r0, r0 < 2 →
        ∃ out,
          recv_prev_rank ⟨7, 3, 2, CommMethod.allgather, r0, 2⟩
            ([⟨DType.float32, Device.cuda, [2], [1, 2]⟩,
              ⟨DType.float32, Device.cuda, [2], [3, 4]⟩] :
                List (Tensor Int)).length [2] DType.float32 Device.cuda
            (0 : Int) (msgs r0).payload (fun r => (msgs r).payload)
            = some out ∧
          recv_prev_rank ⟨7, 3, 2, CommMethod.send_recv, r0, 2⟩
            ([⟨DType.float32, Device.cuda, [2], [1, 2]⟩,
              ⟨DType.float32, Device.cuda, [2], [3, 4]⟩] :
                List (Tensor Int)).length [2] DType.float32 Device.cuda
            (0 : Int)
            ((([⟨DType.float32, Device.cuda, [2], [1, 2]⟩,
              ⟨DType.float32, Device.cuda, [2], [3, 4]⟩] :
                List (Tensor Int)).map Tensor.data).flatten)
            (fun r => (msgs r).payload) = some out ∧
          (out.map Tensor.data).flatten
            = (([⟨DType.float32, Device.cuda, [2], [1, 2]⟩,
              ⟨DType.float32, Device.cuda, [2], [3, 4]⟩] :
                List (Tensor Int)).map Tensor.data).flatten :=
  C1_allgather_pipeline_roundtrip 2 7 3 2
    [⟨DType.float32, Device.cuda, [2], [1, 2]⟩,
     ⟨DType.float32, Device.cuda, [2], [3, 4]⟩] [2] DType.float32
    Device.cuda 0 (by decide) (by decide) (by decide) (by decide)
    (by decide) (by decide) (by decide)

/-- Claim C3: `tensor_model_parallel_all_reduce` selects exactly one backend
per call in fixed priority order — custom kernel first (used iff it returns
a result), then pynccl iff the flag is enabled, else the generic collective
backend unconditionally; in the two fall-through cases the (in-place
updated) input tensor itself is returned.  The second conjunct records that
some backend always performs the reduction when the world size is not 1. -/
theorem C3_all_reduce_dispatch (env : ARenv α) (input_ : Tensor α)
    (hws : env.tpWorldSize ≠ 1) :
    tensor_model_parallel_all_reduce env input_
      = (match env.custom_all_reduce input_ with
        | some out => (out, some ARBackend.custom)
        | none =>
          if env.pynccl_enabled then
            (env.pynccl_all_reduce input_, some ARBackend.pynccl)
          else (env.torch_all_reduce input_, some ARBackend.generic)) ∧
    (tensor_model_parallel_all_reduce env input_).2.isSome = true := by
  unfold tensor_model_parallel_all_reduce
  rw [if_neg hws]
  refine ⟨rfl, ?_⟩
  cases h : env.custom_all_reduce input_ with
  | none => by_cases hp : env.pynccl_enabled <;> simp [h, hp]
  | some out => simp [h]

/-- Witness for C3: world size 2, declining custom kernel, pynccl enabled. -/
theorem C3_all_reduce_dispatch_witness :
    tensor_model_parallel_all_reduce
      (⟨2, fun _ => none, true, fun t => t, fun t => t⟩ : ARenv Int)
      ⟨DType.float32, Device.cuda, [1], [3]⟩
      = (⟨DType.float32, Device.cuda, [1], [3]⟩, some ARBackend.pynccl) ∧
    (tensor_model_parallel_all_reduce
      (⟨2, fun _ => none, true, fun t => t, fun t => t⟩ : ARenv Int)
      ⟨DType.float32, Device.cuda, [1], [3]⟩).2.isSome = true :=
  C3_all_reduce_dispatch
    (⟨2, fun _ => none, true, fun t => t, fun t => t⟩ : ARenv Int)
    ⟨DType.float32, Device.cuda, [1], [3]⟩ (by decide)

/-! ### Dictionary broadcast lemmas (for C4) -/

/-- The tensors of a dict, in iteration order. -/
def tensorFilter (ds : TDict κ α β) : List (Tensor α) :=
  ds.filterMap fun kv =>
    match kv.2 with
    | TValue.tensor t => some t
    | TValue.obj _ => none

theorem dictLookup_nodup [DecidableEq κ] :
    ∀ (d : TDict κ α β), (d.map Prod.fst).Nodup →
      ∀ k v, (k, v) ∈ d → dictLookup d k = some v := by
  intro d
  induction d with
  | nil => intro _ k v hm; simp at hm
  | cons hd tl ih =>
    intro hnd k v hm
    obtain ⟨k0, v0⟩ := hd
    rw [List.map_cons, List.nodup_cons] at hnd
    rcases List.mem_cons.mp hm with heq | hm2
    · injection heq with e1 e2
      subst e1
      subst e2
      simp [dictLookup]
    · have hk : k0 ≠ k := by
        intro h
        subst h
        exact hnd.1 (List.mem_map.mpr ⟨(k0, v), hm2, rfl⟩)
      simp only [dictLookup, if_neg hk]
      exact ih hnd.2 k v hm2

/-- The metadata list has one entry per dict key, in iteration order. -/
theorem metadata_keys :
    ∀ (ds : TDict κ α β) (mds : List (κ × TMeta β)),
      buildMetadata ds = some mds →
      mds.map Prod.fst = ds.map Prod.fst := by
  intro ds
  induction ds with
  | nil =>
    intro mds hmd
    simp only [buildMetadata] at hmd
    obtain rfl := Option.some.inj hmd
    rfl
  | cons hd tl ih =>
    intro mds hmd
    obtain ⟨k, v⟩ := hd
    cases v with
    | tensor t =>
      simp only [buildMetadata] at hmd
      by_cases hc : t.device = Device.cuda
      · rw [if_pos hc] at hmd
        cases hmt : buildMetadata tl with
        | none => rw [hmt] at hmd; simp at hmd
        | some mtl =>
          rw [hmt] at hmd
          simp only [Option.map_some'] at hmd
          obtain rfl := Option.some.inj hmd
          simp only [List.map_cons]
          rw [ih mtl hmt]
      · rw [if_neg hc] at hmd
        exact absurd hmd (by simp)
    | obj o =>
      simp only [buildMetadata] at hmd
      cases hmt : buildMetadata tl with
      | none => rw [hmt] at hmd; simp at hmd
      | some mtl =>
        rw [hmt] at hmd
        simp only [Option.map_some'] at hmd
        obtain rfl := Option.some.inj hmd
        simp only [List.map_cons]
        rw [ih mtl hmt]

/-- The source rank broadcasts exactly the dict's tensors, in metadata
order (one non-blocking broadcast per `TensorMetadata` entry). -/
theorem srcPayloads_eq [DecidableEq κ] (dfull : TDict κ α β) :
    ∀ (ds : TDict κ α β) (mds : List (κ × TMeta β)),
      buildMetadata ds = some mds →
      (∀ kv ∈ ds, dictLookup dfull kv.1 = some kv.2) →
      srcPayloads dfull mds = tensorFilter ds := by
  intro ds
  induction ds with
  | nil =>
    intro mds hmd _
    simp only [buildMetadata] at hmd
    obtain rfl := Option.some.inj hmd
    rfl
  | cons hd tl ih =>
    intro mds hmd hlk
    obtain ⟨k, v⟩ := hd
    cases v with
    | tensor t =>
      simp only [buildMetadata] at hmd
      by_cases hc : t.device = Device.cuda
      · rw [if_pos hc] at hmd
        cases hmt : buildMetadata tl with
        | none => rw [hmt] at hmd; simp at hmd
        | some mtl =>
          rw [hmt] at hmd
          simp only [Option.map_some'] at hmd
          obtain rfl := Option.some.inj hmd
          have hk := hlk (k, TValue.tensor t) (by simp)
          simp only [srcPayloads, tensorFilter, List.filterMap_cons, hk]
          have := ih mtl hmt (fun kv hkv => hlk kv (by simp [hkv]))
          simp only [srcPayloads, tensorFilter] at this
          rw [this]
      · rw [if_neg hc] at hmd
        exact absurd hmd (by simp)
    | obj o =>
      simp only [buildMetadata] at hmd
      cases hmt : buildMetadata tl with
      | none => rw [hmt] at hmd; simp at hmd
      | some mtl =>
        rw [hmt] at hmd
        simp only [Option.map_some'] at hmd
        obtain rfl := Option.some.inj hmd
        simp only [srcPayloads, tensorFilter, List.filterMap_cons]
        have := ih mtl hmt (fun kv hkv => hlk kv (by simp [hkv]))
        simp only [srcPayloads, tensorFilter] at this
        rw [this]

/-- A receiving rank fed the metadata list and the source's tensor payloads
reconstructs the source dict exactly (tensors on the accelerator, with the
declared dtype and shape). -/
theorem recvTensorDict_eq :
    ∀ (ds : TDict κ α β) (mds : List (κ × TMeta β)),
      buildMetadata ds = some mds →
      recvTensorDict mds ((tensorFilter ds).map Tensor.data) = ds := by
  intro ds
  induction ds with
  | nil =>
    intro mds hmd
    simp only [buildMetadata] at hmd
    obtain rfl := Option.some.inj hmd
    rfl
  | cons hd tl ih =>
    intro mds hmd
    obtain ⟨k, v⟩ := hd
    cases v with
    | tensor t =>
      simp only [buildMetadata] at hmd
      by_cases hc : t.device = Device.cuda
      · rw [if_pos hc] at hmd
        cases hmt : buildMetadata tl with
        | none => rw [hmt] at hmd; simp at hmd
        | some mtl =>
          rw [hmt] at hmd
          simp only [Option.map_some'] at hmd
          obtain rfl := Option.some.inj hmd
          simp only [tensorFilter, List.filterMap_cons, List.map_cons,
            recvTensorDict, List.headD_cons, List.tail_cons]
          rw [List.cons.injEq]
          refine ⟨by rw [← hc], ?_⟩
          have := ih mtl hmt
          simp only [tensorFilter] at this
          exact this
      · rw [if_neg hc] at hmd
        exact absurd hmd (by simp)
    | obj o =>
      simp only [buildMetadata] at hmd
      cases hmt : buildMetadata tl with
      | none => rw [hmt] at hmd; simp at hmd
      | some mtl =>
        rw [hmt] at hmd
        simp only [Option.map_some'] at hmd
        obtain rfl := Option.some.inj hmd
        simp only [tensorFilter, List.filterMap_cons, recvTensorDict]
        rw [List.cons.injEq]
        refine ⟨rfl, ?_⟩
        have := ih mtl hmt
        simp only [tensorFilter] at this
        exact this

theorem tensorFilter_count (ds : TDict κ α β) :
    (tensorFilter ds).length
      = (ds.filter fun kv => kv.2.isTensor).length := by
  induction ds with
  | nil => rfl
  | cons hd tl ih =>
    obtain ⟨k, v⟩ := hd
    cases v with
    | tensor t =>
      simp only [tensorFilter, List.filterMap_cons, List.filter_cons] at *
      simp [TValue.isTensor, ih]
    | obj o =>
      simp only [tensorFilter, List.filterMap_cons, List.filter_cons] at *
      simp [TValue.isTensor, ih]

/-- Claim C4: `broadcast_tensor_dict` is order- and type-preserving.  For a
source dict with no duplicate keys and all tensors accelerator-resident
(`buildMetadata` succeeds) and a group of world size other than 1: the
metadata list has one entry per key in the source dict's iteration order;
exactly one tensor broadcast is issued per tensor entry; the source rank
returns its dict; and every receiving rank reconstructs the dict exactly —
same key order, non-tensor values equal by value, and one cuda-resident
tensor of the declared dtype and shape (the source tensor's) per entry. -/
theorem C4_broadcast_tensor_dict [DecidableEq κ] (ranks : List Nat)
    (src rank : Nat) (other : Option (TDict κ α β)) (d : TDict κ α β)
    (md : List (κ × TMeta β))
    (hsrc : src ∈ ranks) (hws : ranks.length ≠ 1) (hrank : rank ≠ src)
    (hnodup : (d.map Prod.fst).Nodup)
    (hmd : buildMetadata d = some md) :
    md.map Prod.fst = d.map Prod.fst ∧
    (srcPayloads d md).length
      = (d.filter fun kv => kv.2.isTensor).length ∧
    broadcast_tensor_dict ranks src src (some d) d = some (some d) ∧
    broadcast_tensor_dict ranks src rank other d = some (some d) := by
  have hlk : ∀ kv ∈ d, dictLookup d kv.1 = some kv.2 := by
    intro kv hkv
    obtain ⟨k, v⟩ := kv
    exact dictLookup_nodup d hnodup k v hkv
  have hsp : srcPayloads d md = tensorFilter d :=
    srcPayloads_eq d d md hmd hlk
  refine ⟨metadata_keys d md hmd, ?_, ?_, ?_⟩
  · rw [hsp]
    exact tensorFilter_count d
  · unfold broadcast_tensor_dict
    rw [if_neg (not_not_intro hsrc), if_neg hws, if_pos rfl]
    show Option.map (fun _ => some d) (buildMetadata d) = some (some d)
    rw [hmd]
    rfl
  · unfold broadcast_tensor_dict
    rw [if_neg (not_not_intro hsrc), if_neg hws, if_neg hrank, hmd]
    simp only [Option.map_some']
    rw [hsp, recvTensorDict_eq d md hmd]

/-- Witness for C4: a three-entry dict (tensor, plain value, tensor)
mirroring the spec's example shapes, over a two-rank group. -/
theorem C4_broadcast_tensor_dict_witness :
    ([(0, TMeta.metadata ⟨DType.float32, [2, 2]⟩), (1, TMeta.obj 7),
      (2, TMeta.metadata ⟨DType.int64, [2]⟩)] :
        List (Nat × TMeta Nat)).map Prod.fst
      = ([(0, TValue.tensor ⟨DType.float32, Device.cuda, [2, 2], [1, 2, 3, 4]⟩),
          (1, TValue.obj 7),
          (2, TValue.tensor ⟨DType.int64, Device.cuda, [2], [8, 9]⟩)] :
            TDict Nat Int Nat).map Prod.fst ∧
    (srcPayloads
      ([(0, TValue.tensor ⟨DType.float32, Device.cuda, [2, 2], [1, 2, 3, 4]⟩),
        (1, TValue.obj 7),
        (2, TValue.tensor ⟨DType.int64, Device.cuda, [2], [8, 9]⟩)] :
          TDict Nat Int Nat)
      [(0, TMeta.metadata ⟨DType.float32, [2, 2]⟩), (1, TMeta.obj 7),
       (2, TMeta.metadata ⟨DType.int64, [2]⟩)]).length
      = (([(0, TValue.tensor ⟨DType.float32, Device.cuda, [2, 2], [1, 2, 3, 4]⟩),
          (1, TValue.obj 7),
          (2, TValue.tensor ⟨DType.int64, Device.cuda, [2], [8, 9]⟩)] :
            TDict Nat Int Nat).filter fun kv => kv.2.isTensor).length ∧
    broadcast_tensor_dict [0, 1] 0 0
      (some ([(0, TValue.tensor ⟨DType.float32, Device.cuda, [2, 2], [1, 2, 3, 4]⟩),
        (1, TValue.obj 7),
        (2, TValue.tensor ⟨DType.int64, Device.cuda, [2], [8, 9]⟩)] :
          TDict Nat Int Nat))
      ([(0, TValue.tensor ⟨DType.float32, Device.cuda, [2, 2], [1, 2, 3, 4]⟩),
        (1, TValue.obj 7),
        (2, TValue.tensor ⟨DType.int64, Device.cuda, [2], [8, 9]⟩)] :
          TDict Nat Int Nat)
      = some (some
        ([(0, TValue.tensor ⟨DType.float32, Device.cuda, [2, 2], [1, 2, 3, 4]⟩),
          (1, TValue.obj 7),
          (2, TValue.tensor ⟨DType.int64, Device.cuda, [2], [8, 9]⟩)] :
            TDict Nat Int Nat)) ∧
    broadcast_tensor_dict [0, 1] 0 1 (none : Option (TDict Nat Int Nat))
      ([(0, TValue.tensor ⟨DType.float32, Device.cuda, [2, 2], [1, 2, 3, 4]⟩),
        (1, TValue.obj 7),
        (2, TValue.tensor ⟨DType.int64, Device.cuda, [2], [8, 9]⟩)] :
          TDict Nat Int Nat)
      = some (some
        ([(0, TValue.tensor ⟨DType.float32, Device.cuda, [2, 2], [1, 2, 3, 4]⟩),
          (1, TValue.obj 7),
          (2, TValue.tensor ⟨DType.int64, Device.cuda, [2], [8, 9]⟩)] :
            TDict Nat Int Nat)) :=
  C4_broadcast_tensor_dict [0, 1] 0 1 none
    [(0, TValue.tensor ⟨DType.float32, Device.cuda, [2, 2], [1, 2, 3, 4]⟩),
     (1, TValue.obj 7),
     (2, TValue.tensor ⟨DType.int64, Device.cuda, [2], [8, 9]⟩)]
    [(0, TMeta.metadata ⟨DType.float32, [2, 2]⟩), (1, TMeta.obj 7),
     (2, TMeta.metadata ⟨DType.int64, [2]⟩)]
    (by decide) (by decide) (by decide) (by decide) (by decide)

/-- Counterexample to claim C6 as stated: the PipelineTransport operations
have no world-size-1 bypass.  With a pipeline-parallel world size of 1,
`send_next_rank` still issues a point-to-point send — a wire message is
produced (here `some ⟨0, [5]⟩`) — instead of being an identity no-op with no
communication, so "every operation in CollectiveOps and PipelineTransport is
the identity at world size 1" is false. -/
theorem C6_counterexample :
    send_next_rank (⟨0, 0, 1, CommMethod.send_recv, 0, 1⟩ : PPEnv)
      [⟨DType.float32, Device.cuda, [1], [(5 : Int)]⟩]
      = some ⟨0, [5]⟩ := by
  rfl

/-- Claim C6 (amended): when the relevant group's world size is 1, every
CollectiveOps operation (all-reduce, all-gather, gather, and — given a
valid `src`, see C10 — broadcast, broadcast-object-list,
broadcast-tensor-dict) is the identity on its primary payload and issues no
communication; the PipelineTransport operations have no world-size-1 bypass
and still perform their point-to-point transfers (last two conjuncts, with
`ppWorldSize = 1`). -/
theorem C6_world_size_one_identity [DecidableEq κ] [One α] (env : ARenv α)
    (input_ t x srcData : Tensor α) (dim : Int) (dst : Nat)
    (ranks : List Nat) (src rk : Nat) (objs srcList : List β)
    (td : Option (TDict κ α β)) (srcDict : TDict κ α β)
    (penv penv2 : PPEnv) (tensors : List (Tensor α)) (d₀ : α)
    (num : Nat) (sizes : List Nat) (dt : DType) (dev : Device)
    (wire : List α) (tpShards : Nat → List α)
    (h1 : env.tpWorldSize = 1)
    (h2 : src ∈ ranks) (h3 : ranks.length = 1)
    (h4 : penv.ppWorldSize = 1) (h5 : penv.commMethod = CommMethod.send_recv)
    (h6 : catOk tensors = true)
    (h7 : penv2.ppWorldSize = 1)
    (h8 : penv2.commMethod = CommMethod.send_recv)
    (h9 : num ≠ 0) (h10 : wire.length = num * sizes.prod) :
    tensor_model_parallel_all_reduce env input_ = (input_, none) ∧
    tensor_model_parallel_all_gather d₀ [t] 0 dim = some t ∧
    tensor_model_parallel_gather d₀ [t] 0 dst dim = Except.ok (some t) ∧
    broadcast ranks src x srcData = some x ∧
    broadcast_object_list ranks src objs srcList = some objs ∧
    broadcast_tensor_dict ranks src rk td srcDict = some td ∧
    send_next_rank penv tensors
      = some ⟨penv.ppNextRank, (tensors.map Tensor.data).flatten⟩ ∧
    recv_prev_rank penv2 num sizes dt dev d₀ wire tpShards
      = some (chunk0 num sizes dt dev wire) := by
  refine ⟨?_, rfl, rfl, ?_, ?_, ?_, ?_, ?_⟩
  · unfold tensor_model_parallel_all_reduce
    rw [if_pos h1]
  · unfold broadcast
    rw [if_neg (not_not_intro h2), if_pos h3]
  · unfold broadcast_object_list
    rw [if_neg (not_not_intro h2), if_pos h3]
  · unfold broadcast_tensor_dict
    rw [if_neg (not_not_intro h2), if_pos h3]
  · simp only [send_next_rank, h6, h5]
    simp
  · simp only [recv_prev_rank, h8]
    rw [if_neg h9, if_pos h10]

/-- Witness for C6 (amended), with every group of world size 1. -/
theorem C6_world_size_one_identity_witness :
    tensor_model_parallel_all_reduce
      (⟨1, fun _ => none, false, fun t => t, fun t => t⟩ : ARenv Int)
      ⟨DType.float32, Device.cuda, [1], [3]⟩
      = (⟨DType.float32, Device.cuda, [1], [3]⟩, none) ∧
    tensor_model_parallel_all_gather (0 : Int)
      [⟨DType.float32, Device.cuda, [2], [1, 2]⟩] 0 0
      = some ⟨DType.float32, Device.cuda, [2], [1, 2]⟩ ∧
    tensor_model_parallel_gather (0 : Int)
      [⟨DType.float32, Device.cuda, [2], [1, 2]⟩] 0 0 0
      = Except.ok (some ⟨DType.float32, Device.cuda, [2], [1, 2]⟩) ∧
    broadcast [0] 0 (⟨DType.float32, Device.cuda, [1], [4]⟩ : Tensor Int)
      ⟨DType.float32, Device.cuda, [1], [4]⟩
      = some ⟨DType.float32, Device.cuda, [1], [4]⟩ ∧
    broadcast_object_list [0] 0 ([1, 2] : List Nat) [3]
      = some [1, 2] ∧
    broadcast_tensor_dict [0] 0 0
      (some ([(0, TValue.obj 5)] : TDict Nat Int Nat)) []
      = some (some ([(0, TValue.obj 5)] : TDict Nat Int Nat)) ∧
    send_next_rank (⟨0, 0, 1, CommMethod.send_recv, 0, 1⟩ : PPEnv)
      ([⟨DType.float32, Device.cuda, [1], [5]⟩] : List (Tensor Int))
      = some ⟨(⟨0, 0, 1, CommMethod.send_recv, 0, 1⟩ : PPEnv).ppNextRank,
          (([⟨DType.float32, Device.cuda, [1], [5]⟩] :
            List (Tensor Int)).map Tensor.data).flatten⟩ ∧
    recv_prev_rank (⟨0, 0, 1, CommMethod.send_recv, 0, 1⟩ : PPEnv)
      1 [1] DType.float32 Device.cuda (0 : Int) [9] (fun _ => [])
      = some (chunk0 1 [1] DType.float32 Device.cuda [9]) :=
  C6_world_size_one_identity
    (⟨1, fun _ => none, false, fun t => t, fun t => t⟩ : ARenv Int)
    ⟨DType.float32, Device.cuda, [1], [3]⟩
    ⟨DType.float32, Device.cuda, [2], [1, 2]⟩
    ⟨DType.float32, Device.cuda, [1], [4]⟩
    ⟨DType.float32, Device.cuda, [1], [4]⟩ 0 0 [0] 0 0 [1, 2] [3]
    (some [(0, TValue.obj 5)]) []
    (⟨0, 0, 1, CommMethod.send_recv, 0, 1⟩ : PPEnv)
    (⟨0, 0, 1, CommMethod.send_recv, 0, 1⟩ : PPEnv)
    [⟨DType.float32, Device.cuda, [1], [5]⟩] 0 1 [1] DType.float32
    Device.cuda [9] (fun _ => []) (by decide) (by decide) (by decide)
    (by decide) (by decide) (by decide) (by decide) (by decide) (by decide)
    (by decide)

/-- Claim C10 (implicit): `broadcast`, `broadcast_object_list` and
`broadcast_tensor_dict` validate `src` membership before the world-size-1
bypass: for every group and every `src` outside the group, the call fails
with InvalidArgument (the `assert src in ranks`) — including groups of world
size 1, where the payload is NOT passed through. -/
theorem C10_src_validated_before_bypass [DecidableEq κ] (ranks : List Nat)
    (src rank : Nat) (input_ srcData : Tensor α) (objs srcList : List β)
    (td : Option (TDict κ α β)) (srcDict : TDict κ α β)
    (hsrc : ¬ src ∈ ranks) :
    broadcast ranks src input_ srcData = none ∧
    broadcast_object_list ranks src objs srcList = none ∧
    broadcast_tensor_dict ranks src rank td srcDict = none := by
  refine ⟨?_, ?_, ?_⟩ <;>
    simp [broadcast, broadcast_object_list, broadcast_tensor_dict, hsrc]

/-- Witness for C10: a world-size-1 group `[0]` with foreign `src = 5`. -/
theorem C10_src_validated_before_bypass_witness :
    broadcast [0] 5 (⟨DType.float32, Device.cuda, [1], [4]⟩ : Tensor Int)
      ⟨DType.float32, Device.cuda, [1], [4]⟩ = none ∧
    broadcast_object_list [0] 5 ([1] : List Nat) [2] = none ∧
    broadcast_tensor_dict [0] 5 0 (none : Option (TDict Nat Int Nat)) []
      = none :=
  C10_src_validated_before_bypass [0] 5 0
    (⟨DType.float32, Device.cuda, [1], [4]⟩ : Tensor Int)
    ⟨DType.float32, Device.cuda, [1], [4]⟩ ([1] : List Nat) [2]
    (none : Option (TDict Nat Int Nat)) [] (by decide)

end CommOp
